import Mathlib

/-!
Shallow embedding of the camera-framing controller
(src/osgview/GUIOSGPerspectiveChanger.cpp) and of the two keyed sample
tables (src/utils/shapes/Visual.h, src/utils/shapes/Signal.h) of the
sumo-edited repository, together with theorems settling the spec claims.

The C++ `double` arithmetic is modelled over exact fields: the
`setViewportFrom` solver and the sample tables only use field operations,
so they are embedded over the rationals and stay fully executable; the
`centerTo` solver uses `sqrt`, `sin` and `cos`, so it is embedded over the
reals.
-/

namespace SumoEdit

/-- Model of osg::Vec3d (three coordinates over a field); polymorphic so
that the rational and the real developments share one data type. -/
structure Vec3 (K : Type) where
  x : K
  y : K
  z : K
deriving DecidableEq

namespace Vec3

variable {K : Type} [Field K]

/-- Componentwise vector addition (osg::Vec3d operator+). -/
def add (a b : Vec3 K) : Vec3 K := ⟨a.x + b.x, a.y + b.y, a.z + b.z⟩

/-- Componentwise vector subtraction (osg::Vec3d operator-). -/
def sub (a b : Vec3 K) : Vec3 K := ⟨a.x - b.x, a.y - b.y, a.z - b.z⟩

/-- Vector negation (osg::Vec3d unary operator-). -/
def neg (a : Vec3 K) : Vec3 K := ⟨-a.x, -a.y, -a.z⟩

/-- Scaling a vector by a scalar (osg::Vec3d operator* with a double). -/
def scale (a : Vec3 K) (s : K) : Vec3 K := ⟨a.x * s, a.y * s, a.z * s⟩

/-- Dot product (osg::Vec3d operator* between two vectors). -/
def dot (a b : Vec3 K) : K := a.x * b.x + a.y * b.y + a.z * b.z

/-- Cross product (osg::Vec3d operator^). -/
def cross (a b : Vec3 K) : Vec3 K :=
  ⟨a.y * b.z - a.z * b.y, a.z * b.x - a.x * b.z, a.x * b.y - a.y * b.x⟩

/-- Euclidean length (osg::Vec3d::length), over the reals. -/
noncomputable def length (v : Vec3 ℝ) : ℝ :=
  Real.sqrt (v.x ^ 2 + v.y ^ 2 + v.z ^ 2)

/-- osg::Vec3d::normalize: divide by the length when it is positive,
otherwise leave the vector unchanged. -/
noncomputable def normalize (v : Vec3 ℝ) : Vec3 ℝ :=
  if 0 < v.length then v.scale (1 / v.length) else v

end Vec3

/-- A camera pose as decomposed from the manipulator's inverse view matrix
by osg::Matrixd::getLookAt: eye position, look-at point and up vector. -/
structure Pose (K : Type) where
  lookFrom : Vec3 K
  lookAt : Vec3 K
  up : Vec3 K
deriving DecidableEq

/-- The current view direction, dir = lookAt - lookFrom
(GUIOSGPerspectiveChanger.cpp lines 106 and 147). -/
def dirOf {K : Type} [Field K] (p : Pose K) : Vec3 K :=
  p.lookAt.sub p.lookFrom

/-- The branch condition of GUIOSGPerspectiveChanger::setViewportFrom
(line 148): the "create bird view" branch is taken when
(dir.z > 0 and lookFrom.z >= 0) or dir.z == 0. -/
def birdViewCond (p : Pose ℚ) : Prop :=
  ((dirOf p).z > 0 ∧ p.lookFrom.z ≥ 0) ∨ (dirOf p).z = 0

instance (p : Pose ℚ) : Decidable (birdViewCond p) := by
  unfold birdViewCond; infer_instance

/-- The point on the ground in line with the camera direction
(setViewportFrom lines 156-157): groundTarget = lookFrom + dir * factor
with factor = -lookFrom.z / dir.z. -/
def groundTargetOf (p : Pose ℚ) : Vec3 ℚ :=
  p.lookFrom.add ((dirOf p).scale (-p.lookFrom.z / (dirOf p).z))

/-- The horizontal shift of setViewportFrom (lines 158-159): the shift
vector has x and y offsets toward the target and z component 0 (the
osg::Vec3d default). -/
def shiftOf (p : Pose ℚ) (xPos yPos : ℚ) : Vec3 ℚ :=
  ⟨xPos - (groundTargetOf p).x, yPos - (groundTargetOf p).y, 0⟩

/-- GUIOSGPerspectiveChanger::setViewportFrom (lines 142-166), the
moveToGround solver.  The zPos argument is accepted and ignored exactly as
in the source.  The pose pushed through makeLookAt/setByInverseMatrix is
returned as the resulting (lookFrom, lookAt, up) triple. -/
def setViewportFrom (p : Pose ℚ) (xPos yPos _zPos : ℚ) : Pose ℚ :=
  if birdViewCond p then
    -- create bird view: overwrite x and y of lookFrom, look straight down
    let lookFrom' : Vec3 ℚ := ⟨xPos, yPos, p.lookFrom.z⟩
    ⟨lookFrom', lookFrom'.sub ⟨0, 0, 1⟩, p.up⟩
  else
    -- shift current view to reach (x,y,0)
    let shift := shiftOf p xPos yPos
    ⟨p.lookFrom.add shift, p.lookAt.add shift, p.up⟩

/-- DEG2RAD from utils/geom/GeomHelper.h: degrees to radians. -/
noncomputable def DEG2RAD (d : ℝ) : ℝ := d * Real.pi / 180

/-- The raw orthogonal helper direction of
GUIOSGPerspectiveChanger::centerTo (lines 107-114), before normalization:
if dir dot Z_AXIS is nonzero the code assigns -X_AXIS, otherwise it
assigns (-dir.y, dir.x, 0) (the z component stays at the osg::Vec3d
default 0). -/
noncomputable def orthoDirRaw (dir : Vec3 ℝ) : Vec3 ℝ :=
  if dir.dot ⟨0, 0, 1⟩ ≠ 0 then Vec3.neg ⟨1, 0, 0⟩ else ⟨-dir.y, dir.x, 0⟩

/-- The normalized orthogonal helper direction used by centerTo
(line 116). -/
noncomputable def orthoDirOf (p : Pose ℝ) : Vec3 ℝ :=
  (orthoDirRaw (dirOf p)).normalize

/-- The FOV boundary ray direction of centerTo (lines 123-124):
outerFov = dir * cos(halfFovy) + orthoDir * sin(halfFovy) where
halfFovy = DEG2RAD(0.5 * fovy). -/
noncomputable def outerFovOf (p : Pose ℝ) (fovy : ℝ) : Vec3 ℝ :=
  ((dirOf p).scale (Real.cos (DEG2RAD (0.5 * fovy)))).add
    ((orthoDirOf p).scale (Real.sin (DEG2RAD (0.5 * fovy))))

/-- GUIOSGPerspectiveChanger::centerTo (lines 100-132), the
centerOnRegion solver.  fovy is the vertical field of view read from the
projection; applyZoom is accepted and ignored exactly as in the source
(and rightBorder is computed but unused there).  The pose installed via
setHomePosition(camUpdate, center, up) followed by home() is returned as
the resulting triple. -/
noncomputable def centerTo (p : Pose ℝ) (fovy : ℝ) (pos : Vec3 ℝ)
    (radius : ℝ) (_applyZoom : Bool) : Pose ℝ :=
  let dir := dirOf p
  let orthoDir := orthoDirOf p
  let center := pos
  let leftBorder := center.add (orthoDir.scale radius)
  let outerFov := outerFovOf p fovy
  let radiusVec := leftBorder.sub center
  let sign : ℝ :=
    if (outerFov.cross radiusVec).dot (outerFov.cross dir) > 0 then 1 else -1
  let camUpdate :=
    center.add (dir.scale
      (sign * (outerFov.cross radiusVec).length / (outerFov.cross dir).length))
  ⟨camUpdate, center, p.up⟩

/-- A sample of visual angle w.r.t. velocity
(class AngleRef, src/utils/shapes/Visual.h lines 36-79). -/
structure AngleRef where
  myVelocity : ℚ
  myAngle : ℚ
deriving DecidableEq

/-- A sample of prediction error probability w.r.t. distance
(class ErrProbRef, src/utils/shapes/Signal.h lines 36-76). -/
structure ErrProbRef where
  myRef : ℚ
  myErrorProb : ℚ
deriving DecidableEq

/-!
The containers AngleRefs (Visual.h) and ErrProbRefs (Signal.h) are
textually identical up to the names of the sample class and of its key
accessor (Velocity() resp. Reference()).  They are embedded once,
generically over the element type and its key projection, and every claim
theorem instantiates the generic definitions for both classes.
-/

/-- The comparator compare_asc of AngleRefs (Visual.h lines 187-189) and
ErrProbRefs (Signal.h lines 184-186), relaxed from strict to non-strict:
std::sort with the strict key comparator produces some permutation that is
non-strictly sorted by the key, and that is the specification used
below. -/
def keyLe {β : Type} (key : β → ℚ) (a b : β) : Prop := key a ≤ key b

instance {β : Type} (key : β → ℚ) : DecidableRel (keyLe key) :=
  fun a b => inferInstanceAs (Decidable (key a ≤ key b))

instance {β : Type} (key : β → ℚ) : IsTotal β (keyLe key) :=
  ⟨fun a b => le_total (key a) (key b)⟩

instance {β : Type} (key : β → ℚ) : IsTrans β (keyLe key) :=
  ⟨fun _ _ _ h1 h2 => le_trans h1 h2⟩

/-- AngleRefs::exists (Visual.h lines 94-101) and ErrProbRefs::exists
(Signal.h lines 91-98): is some entry's key equal to k? -/
def keyExists {β : Type} (key : β → ℚ) (l : List β) (k : ℚ) : Bool :=
  l.any fun a => decide (key a = k)

/-- AngleRefs::sort_asc (Visual.h lines 192-194) and ErrProbRefs::sort_asc
(Signal.h lines 189-191): std::sort by ascending key, modelled as
insertion sort.  On every container state these methods actually reach the
keys are pairwise distinct, so the sorted-by-key permutation is unique and
every comparison sort returns the same list. -/
def sortAsc {β : Type} (key : β → ℚ) (l : List β) : List β :=
  List.insertionSort (keyLe key) l

/-- AngleRefs::addSample (Visual.h lines 104-109) and
ErrProbRefs::addSample (Signal.h lines 101-106): push_back unless the key
already exists, then sort ascending (the sort runs in both cases). -/
def addSample {β : Type} (key : β → ℚ) (l : List β) (data : β) : List β :=
  sortAsc key (if keyExists key l (key data) then l else l ++ [data])

/-- AngleRefs::can_parse (Visual.h lines 154-170) and
ErrProbRefs::can_parse (Signal.h lines 151-167).  The external helpers
are abstracted: tok s d stands for StringTokenizer(s, d, true).getVector()
and toDouble for StringUtils::toDouble, returning none where the C++
function throws.  Every token split on "," must have exactly two fields,
both convertible to double. -/
def canParse (tok : String → String → List String)
    (toDouble : String → Option ℚ) (seq : String) : Bool :=
  (tok seq ";").all fun item =>
    match tok item "," with
    | [a, b] => (toDouble a).isSome && (toDouble b).isSome
    | _ => false

/-- One iteration of the parse loop (Visual.h lines 177-182, Signal.h
lines 174-179): split the item on ",", convert both fields and addSample
the resulting sample, built by mk from the two numbers.  The fallback
branches return the container unchanged; they are unreachable because
parse runs the loop only after can_parse accepted the whole input. -/
def parseItem {β : Type} (key : β → ℚ) (tok : String → String → List String)
    (toDouble : String → Option ℚ) (mk : ℚ → ℚ → β)
    (l : List β) (item : String) : List β :=
  match tok item "," with
  | [a, b] =>
    match toDouble a, toDouble b with
    | some u, some v => addSample key l (mk u v)
    | _, _ => l
  | _ => l

/-- AngleRefs::parse (Visual.h lines 173-183) and ErrProbRefs::parse
(Signal.h lines 170-180): return unchanged unless can_parse accepts and
the input is nonempty; otherwise clear the container and addSample every
parsed pair. -/
def parseRefs {β : Type} (key : β → ℚ) (tok : String → String → List String)
    (toDouble : String → Option ℚ) (mk : ℚ → ℚ → β)
    (seq : String) (l : List β) : List β :=
  if canParse tok toDouble seq = false ∨ seq = "" then l
  else (tok seq ";").foldl (parseItem key tok toDouble mk) []

/-- A mutating call on a sample table: addSample or parse. -/
inductive TableOp (β : Type) where
  | sample (data : β)
  | parseCall (seq : String)

/-- Apply one mutating call to the container. -/
def applyOp {β : Type} (key : β → ℚ) (tok : String → String → List String)
    (toDouble : String → Option ℚ) (mk : ℚ → ℚ → β)
    (l : List β) : TableOp β → List β
  | .sample d => addSample key l d
  | .parseCall s => parseRefs key tok toDouble mk s l

/-- Run a sequence of mutating calls starting from the default-constructed
empty container. -/
def runOps {β : Type} (key : β → ℚ) (tok : String → String → List String)
    (toDouble : String → Option ℚ) (mk : ℚ → ℚ → β)
    (ops : List (TableOp β)) : List β :=
  ops.foldl (applyOp key tok toDouble mk) []

/-- The container invariant of claim C9: entries strictly ascending in the
key, which also forces all keys pairwise distinct. -/
def KeySorted {β : Type} (key : β → ℚ) (l : List β) : Prop :=
  l.Pairwise fun a b => key a < key b

lemma keyExists_eq_false_iff {β : Type} (key : β → ℚ) (l : List β) (k : ℚ) :
    keyExists key l k = false ↔ ∀ a ∈ l, key a ≠ k := by
  simp [keyExists]

lemma KeySorted.sorted_le {β : Type} {key : β → ℚ} {l : List β}
    (h : KeySorted key l) : l.Sorted (keyLe key) :=
  h.imp fun hab => le_of_lt hab

lemma KeySorted.pairwise_ne {β : Type} {key : β → ℚ} {l : List β}
    (h : KeySorted key l) : l.Pairwise fun a b => key a ≠ key b :=
  h.imp fun hab => ne_of_lt hab

lemma sortAsc_eq_of_keySorted {β : Type} {key : β → ℚ} {l : List β}
    (h : KeySorted key l) : sortAsc key l = l :=
  h.sorted_le.insertionSort_eq

lemma keySorted_sortAsc {β : Type} {key : β → ℚ} {l : List β}
    (h : l.Pairwise fun a b => key a ≠ key b) : KeySorted key (sortAsc key l) := by
  have hs : (sortAsc key l).Sorted (keyLe key) :=
    List.sorted_insertionSort (keyLe key) l
  have hperm : (sortAsc key l).Perm l := List.perm_insertionSort (keyLe key) l
  have hne : (sortAsc key l).Pairwise fun a b => key a ≠ key b :=
    (hperm.pairwise_iff fun hab => Ne.symm hab).mpr h
  exact (hs.and hne).imp fun hab => lt_of_le_of_ne hab.1 hab.2

lemma keySorted_addSample {β : Type} {key : β → ℚ} {l : List β}
    (h : KeySorted key l) (d : β) : KeySorted key (addSample key l d) := by
  unfold addSample
  by_cases hex : keyExists key l (key d) = true
  · rw [if_pos hex, sortAsc_eq_of_keySorted h]
    exact h
  · rw [if_neg hex]
    apply keySorted_sortAsc
    rw [List.pairwise_append]
    refine ⟨h.pairwise_ne, List.pairwise_singleton _ _, ?_⟩
    intro a ha b hb
    rw [List.mem_singleton] at hb
    rw [hb]
    exact (keyExists_eq_false_iff key l (key d)).mp
      (Bool.eq_false_iff.mpr hex) a ha

lemma addSample_of_keyExists {β : Type} {key : β → ℚ} {l : List β}
    (h : KeySorted key l) {d : β}
    (hex : keyExists key l (key d) = true) : addSample key l d = l := by
  unfold addSample
  rw [if_pos hex]
  exact sortAsc_eq_of_keySorted h

lemma keySorted_parseItem {β : Type} {key : β → ℚ}
    (tok : String → String → List String) (toDouble : String → Option ℚ)
    (mk : ℚ → ℚ → β) {l : List β} (h : KeySorted key l) (item : String) :
    KeySorted key (parseItem key tok toDouble mk l item) := by
  unfold parseItem
  split
  · split
    · exact keySorted_addSample h _
    · exact h
  · exact h

lemma keySorted_foldl_parseItem {β : Type} {key : β → ℚ}
    (tok : String → String → List String) (toDouble : String → Option ℚ)
    (mk : ℚ → ℚ → β) (items : List String) :
    ∀ l : List β, KeySorted key l →
      KeySorted key (items.foldl (parseItem key tok toDouble mk) l) := by
  induction items with
  | nil => intro l h; exact h
  | cons a as ih =>
    intro l h
    exact ih _ (keySorted_parseItem tok toDouble mk h a)

lemma keySorted_parseRefs {β : Type} {key : β → ℚ}
    (tok : String → String → List String) (toDouble : String → Option ℚ)
    (mk : ℚ → ℚ → β) {l : List β} (h : KeySorted key l) (seq : String) :
    KeySorted key (parseRefs key tok toDouble mk seq l) := by
  unfold parseRefs
  split
  · exact h
  · exact keySorted_foldl_parseItem tok toDouble mk _ [] List.Pairwise.nil

lemma keySorted_applyOp {β : Type} {key : β → ℚ}
    (tok : String → String → List String) (toDouble : String → Option ℚ)
    (mk : ℚ → ℚ → β) {l : List β} (h : KeySorted key l) (op : TableOp β) :
    KeySorted key (applyOp key tok toDouble mk l op) := by
  cases op with
  | sample d => exact keySorted_addSample h d
  | parseCall s => exact keySorted_parseRefs tok toDouble mk h s

lemma keySorted_runOps {β : Type} (key : β → ℚ)
    (tok : String → String → List String) (toDouble : String → Option ℚ)
    (mk : ℚ → ℚ → β) (ops : List (TableOp β)) :
    KeySorted key (runOps key tok toDouble mk ops) := by
  unfold runOps
  have main : ∀ (ops : List (TableOp β)) (l : List β), KeySorted key l →
      KeySorted key (ops.foldl (applyOp key tok toDouble mk) l) := by
    intro ops
    induction ops with
    | nil => intro l h; exact h
    | cons a as ih =>
      intro l h
      exact ih _ (keySorted_applyOp tok toDouble mk h a)
  exact main ops [] List.Pairwise.nil

lemma orthoDirRaw_of_dot_ne (dir : Vec3 ℝ) (h : dir.dot ⟨0, 0, 1⟩ ≠ 0) :
    orthoDirRaw dir = ⟨-1, 0, 0⟩ := by
  unfold orthoDirRaw
  rw [if_pos h]
  simp [Vec3.neg]

lemma normalize_of_length_one (v : Vec3 ℝ) (h : v.length = 1) :
    v.normalize = v := by
  unfold Vec3.normalize
  rw [h]
  norm_num [Vec3.scale]

lemma length_negX : Vec3.length ⟨-1, 0, 0⟩ = 1 := by
  unfold Vec3.length
  norm_num

lemma up_setViewportFrom (p : Pose ℚ) (x y zp : ℚ) :
    (setViewportFrom p x y zp).up = p.up := by
  unfold setViewportFrom
  split <;> rfl

lemma lookFrom_z_setViewportFrom (p : Pose ℚ) (x y zp : ℚ)
    (h : ¬ birdViewCond p) :
    (setViewportFrom p x y zp).lookFrom.z = p.lookFrom.z := by
  unfold setViewportFrom
  rw [if_neg h]
  simp [shiftOf, Vec3.add]

lemma dirOf_setViewportFrom (p : Pose ℚ) (x y zp : ℚ)
    (h : ¬ birdViewCond p) :
    dirOf (setViewportFrom p x y zp) = dirOf p := by
  unfold setViewportFrom
  rw [if_neg h]
  simp only [dirOf, Vec3.add, Vec3.sub, Vec3.mk.injEq]
  refine ⟨by ring, by ring, by ring⟩

lemma birdViewCond_setViewportFrom (p : Pose ℚ) (x y zp : ℚ)
    (h : ¬ birdViewCond p) :
    ¬ birdViewCond (setViewportFrom p x y zp) := by
  unfold birdViewCond
  rw [dirOf_setViewportFrom p x y zp h, lookFrom_z_setViewportFrom p x y zp h]
  exact h

lemma dirOf_z_ne_zero (p : Pose ℚ) (h : ¬ birdViewCond p) :
    (dirOf p).z ≠ 0 := by
  unfold birdViewCond at h
  push_neg at h
  exact h.2

/-- Claim C3: moveToGround (setViewportFrom) enters bird's-eye mode
exactly when (dir.z > 0 and position.z >= 0) or dir.z == 0 holds for the
current pose; in that mode it produces newPos = (x, y, position.z) and
newLookAt = newPos - (0, 0, 1), and otherwise it applies the
oriented shift. -/
theorem c3_setViewportFrom_mode (p : Pose ℚ) (x y zp : ℚ) :
    (((dirOf p).z > 0 ∧ p.lookFrom.z ≥ 0) ∨ (dirOf p).z = 0 →
      setViewportFrom p x y zp =
        ⟨⟨x, y, p.lookFrom.z⟩,
          Vec3.sub ⟨x, y, p.lookFrom.z⟩ ⟨0, 0, 1⟩, p.up⟩) ∧
    (¬ (((dirOf p).z > 0 ∧ p.lookFrom.z ≥ 0) ∨ (dirOf p).z = 0) →
      setViewportFrom p x y zp =
        ⟨p.lookFrom.add (shiftOf p x y),
          p.lookAt.add (shiftOf p x y), p.up⟩) := by
  constructor
  · intro h
    have hb : birdViewCond p := h
    unfold setViewportFrom
    rw [if_pos hb]
  · intro h
    have hb : ¬ birdViewCond p := h
    unfold setViewportFrom
    rw [if_neg hb]

/-- Witness for C3: both branches at concrete poses. -/
theorem c3_setViewportFrom_mode_witness :
    (setViewportFrom ⟨⟨0, 0, 5⟩, ⟨0, 0, 6⟩, ⟨0, 1, 0⟩⟩ 2 3 0 =
      ⟨⟨2, 3, 5⟩, Vec3.sub ⟨2, 3, 5⟩ ⟨0, 0, 1⟩, ⟨0, 1, 0⟩⟩) ∧
    (setViewportFrom ⟨⟨0, 0, 10⟩, ⟨1, 0, 9⟩, ⟨0, 0, 1⟩⟩ 2 3 0 =
      ⟨Vec3.add ⟨0, 0, 10⟩ (shiftOf ⟨⟨0, 0, 10⟩, ⟨1, 0, 9⟩, ⟨0, 0, 1⟩⟩ 2 3),
        Vec3.add ⟨1, 0, 9⟩ (shiftOf ⟨⟨0, 0, 10⟩, ⟨1, 0, 9⟩, ⟨0, 0, 1⟩⟩ 2 3),
        ⟨0, 0, 1⟩⟩) :=
  ⟨(c3_setViewportFrom_mode ⟨⟨0, 0, 5⟩, ⟨0, 0, 6⟩, ⟨0, 1, 0⟩⟩ 2 3 0).1
      (by norm_num [dirOf, Vec3.sub]),
   (c3_setViewportFrom_mode ⟨⟨0, 0, 10⟩, ⟨1, 0, 9⟩, ⟨0, 0, 1⟩⟩ 2 3 0).2
      (by norm_num [dirOf, Vec3.sub])⟩

/-- Claim C2: in oriented-shift mode, the ray from the new camera position
along the new view direction meets the ground plane z = 0 exactly at
(x, y). -/
theorem c2_setViewportFrom_ground (p : Pose ℚ) (x y zp : ℚ)
    (h : ¬ birdViewCond p) :
    (setViewportFrom p x y zp).lookFrom.add
      ((dirOf (setViewportFrom p x y zp)).scale
        (-(setViewportFrom p x y zp).lookFrom.z /
          (dirOf (setViewportFrom p x y zp)).z)) = ⟨x, y, 0⟩ := by
  have hz : (dirOf p).z ≠ 0 := dirOf_z_ne_zero p h
  rw [dirOf_setViewportFrom p x y zp h, lookFrom_z_setViewportFrom p x y zp h]
  unfold setViewportFrom
  rw [if_neg h]
  simp only [dirOf, shiftOf, groundTargetOf, Vec3.add, Vec3.sub, Vec3.scale,
    Vec3.mk.injEq] at hz ⊢
  refine ⟨?_, ?_, ?_⟩
  · field_simp
    ring
  · field_simp
    ring
  · field_simp
    ring

/-- Witness for C2 at a concrete oblique pose. -/
theorem c2_setViewportFrom_ground_witness :
    ¬ birdViewCond ⟨⟨0, 0, 10⟩, ⟨1, 0, 9⟩, ⟨0, 0, 1⟩⟩ ∧
    (setViewportFrom ⟨⟨0, 0, 10⟩, ⟨1, 0, 9⟩, ⟨0, 0, 1⟩⟩ 3 4 0).lookFrom.add
      ((dirOf (setViewportFrom ⟨⟨0, 0, 10⟩, ⟨1, 0, 9⟩, ⟨0, 0, 1⟩⟩ 3 4 0)).scale
        (-(setViewportFrom ⟨⟨0, 0, 10⟩, ⟨1, 0, 9⟩, ⟨0, 0, 1⟩⟩ 3 4 0).lookFrom.z /
          (dirOf (setViewportFrom ⟨⟨0, 0, 10⟩, ⟨1, 0, 9⟩, ⟨0, 0, 1⟩⟩ 3 4 0)).z))
      = ⟨3, 4, 0⟩ :=
  ⟨by norm_num [birdViewCond, dirOf, Vec3.sub],
   c2_setViewportFrom_ground ⟨⟨0, 0, 10⟩, ⟨1, 0, 9⟩, ⟨0, 0, 1⟩⟩ 3 4 0
     (by norm_num [birdViewCond, dirOf, Vec3.sub])⟩

/-- Claim C6: in oriented-shift mode the view direction vector
newLookAt - newPos equals lookAt - position from before the move, and the
up vector is taken unchanged from the current pose. -/
theorem c6_setViewportFrom_direction (p : Pose ℚ) (x y zp : ℚ)
    (h : ¬ birdViewCond p) :
    dirOf (setViewportFrom p x y zp) = dirOf p ∧
    (setViewportFrom p x y zp).up = p.up :=
  ⟨dirOf_setViewportFrom p x y zp h, up_setViewportFrom p x y zp⟩

/-- Witness for C6 at a concrete oblique pose. -/
theorem c6_setViewportFrom_direction_witness :
    ¬ birdViewCond ⟨⟨0, 0, 10⟩, ⟨1, 0, 9⟩, ⟨0, 0, 1⟩⟩ ∧
    dirOf (setViewportFrom ⟨⟨0, 0, 10⟩, ⟨1, 0, 9⟩, ⟨0, 0, 1⟩⟩ 3 4 0) =
      dirOf ⟨⟨0, 0, 10⟩, ⟨1, 0, 9⟩, ⟨0, 0, 1⟩⟩ ∧
    (setViewportFrom ⟨⟨0, 0, 10⟩, ⟨1, 0, 9⟩, ⟨0, 0, 1⟩⟩ 3 4 0).up =
      (⟨0, 0, 1⟩ : Vec3 ℚ) :=
  ⟨by norm_num [birdViewCond, dirOf, Vec3.sub],
   (c6_setViewportFrom_direction ⟨⟨0, 0, 10⟩, ⟨1, 0, 9⟩, ⟨0, 0, 1⟩⟩ 3 4 0
     (by norm_num [birdViewCond, dirOf, Vec3.sub])).1,
   (c6_setViewportFrom_direction ⟨⟨0, 0, 10⟩, ⟨1, 0, 9⟩, ⟨0, 0, 1⟩⟩ 3 4 0
     (by norm_num [birdViewCond, dirOf, Vec3.sub])).2⟩

/-- Claim C4: from any pose with view direction (0, 0, -1) and
position.z >= 0, moveToGround(x, y) yields newPos = (x, y, position.z)
and newLookAt = (x, y, position.z - 1). -/
theorem c4_setViewportFrom_downward (p : Pose ℚ) (x y zp : ℚ)
    (h1 : dirOf p = ⟨0, 0, -1⟩) (h2 : p.lookFrom.z ≥ 0) :
    setViewportFrom p x y zp =
      ⟨⟨x, y, p.lookFrom.z⟩, ⟨x, y, p.lookFrom.z - 1⟩, p.up⟩ := by
  have hb : ¬ birdViewCond p := by
    unfold birdViewCond
    rw [h1]
    norm_num
  have e1 : p.lookAt.x = p.lookFrom.x := by
    have := congrArg Vec3.x h1
    simp only [dirOf, Vec3.sub] at this
    linarith
  have e2 : p.lookAt.y = p.lookFrom.y := by
    have := congrArg Vec3.y h1
    simp only [dirOf, Vec3.sub] at this
    linarith
  have e3 : p.lookAt.z = p.lookFrom.z - 1 := by
    have := congrArg Vec3.z h1
    simp only [dirOf, Vec3.sub] at this
    linarith
  unfold setViewportFrom
  rw [if_neg hb]
  simp only [shiftOf, groundTargetOf, dirOf, Vec3.add, Vec3.sub, Vec3.scale,
    Pose.mk.injEq, Vec3.mk.injEq, e1, e2, e3]
  norm_num

/-- Witness for C4 at a concrete straight-down pose. -/
theorem c4_setViewportFrom_downward_witness :
    dirOf ⟨⟨1, 2, 7⟩, ⟨1, 2, 6⟩, ⟨0, 1, 0⟩⟩ = (⟨0, 0, -1⟩ : Vec3 ℚ) ∧
    (⟨⟨1, 2, 7⟩, ⟨1, 2, 6⟩, ⟨0, 1, 0⟩⟩ : Pose ℚ).lookFrom.z ≥ 0 ∧
    setViewportFrom ⟨⟨1, 2, 7⟩, ⟨1, 2, 6⟩, ⟨0, 1, 0⟩⟩ 3 4 0 =
      ⟨⟨3, 4, 7⟩, ⟨3, 4, 6⟩, ⟨0, 1, 0⟩⟩ := by
  refine ⟨by norm_num [dirOf, Vec3.sub, Vec3.mk.injEq], by norm_num, ?_⟩
  have := c4_setViewportFrom_downward ⟨⟨1, 2, 7⟩, ⟨1, 2, 6⟩, ⟨0, 1, 0⟩⟩ 3 4 0
    (by norm_num [dirOf, Vec3.sub, Vec3.mk.injEq]) (by norm_num)
  norm_num at this
  exact this

/-- Claim C7: moveToGround is idempotent: applying it a second time with
the same target changes neither the position nor the look-at point. -/
theorem c7_setViewportFrom_idempotent (p : Pose ℚ) (x y zp : ℚ) :
    setViewportFrom (setViewportFrom p x y zp) x y zp =
      setViewportFrom p x y zp := by
  by_cases hb : birdViewCond p
  · have hq : setViewportFrom p x y zp =
        ⟨⟨x, y, p.lookFrom.z⟩,
          Vec3.sub ⟨x, y, p.lookFrom.z⟩ ⟨0, 0, 1⟩, p.up⟩ := by
      unfold setViewportFrom
      rw [if_pos hb]
    rw [hq]
    have hnb : ¬ birdViewCond
        (⟨⟨x, y, p.lookFrom.z⟩,
          Vec3.sub ⟨x, y, p.lookFrom.z⟩ ⟨0, 0, 1⟩, p.up⟩ : Pose ℚ) := by
      unfold birdViewCond dirOf
      simp [Vec3.sub]
    unfold setViewportFrom
    rw [if_neg hnb]
    simp only [shiftOf, groundTargetOf, dirOf, Vec3.add, Vec3.sub, Vec3.scale,
      Pose.mk.injEq, Vec3.mk.injEq]
    norm_num
  · have hnb := birdViewCond_setViewportFrom p x y zp hb
    have hz : (dirOf p).z ≠ 0 := dirOf_z_ne_zero p hb
    conv_lhs => rw [setViewportFrom]
    rw [if_neg hnb]
    have hsh : shiftOf (setViewportFrom p x y zp) x y = ⟨0, 0, 0⟩ := by
      unfold shiftOf groundTargetOf
      rw [dirOf_setViewportFrom p x y zp hb,
        lookFrom_z_setViewportFrom p x y zp hb]
      unfold setViewportFrom
      rw [if_neg hb]
      simp only [shiftOf, groundTargetOf, dirOf, Vec3.add, Vec3.sub,
        Vec3.scale, Vec3.mk.injEq]
      refine ⟨by ring, by ring, trivial⟩
    rw [hsh]
    cases hsv : setViewportFrom p x y zp with
    | mk a b c =>
      simp [Vec3.add]

/-- Claim C9: after every sequence of addSample and parse calls, the
AngleRefs container is strictly ascending in velocity and the ErrProbRefs
container is strictly ascending in distance (hence neither holds two
entries with equal keys), and addSample with an already-present key leaves
the entries unchanged. -/
theorem c9_tables_invariant
    (tokA tokE : String → String → List String)
    (toDA toDE : String → Option ℚ)
    (opsA : List (TableOp AngleRef)) (opsE : List (TableOp ErrProbRef)) :
    KeySorted AngleRef.myVelocity
      (runOps AngleRef.myVelocity tokA toDA AngleRef.mk opsA) ∧
    (∀ d : AngleRef,
      keyExists AngleRef.myVelocity
        (runOps AngleRef.myVelocity tokA toDA AngleRef.mk opsA)
        d.myVelocity = true →
      addSample AngleRef.myVelocity
        (runOps AngleRef.myVelocity tokA toDA AngleRef.mk opsA) d =
        runOps AngleRef.myVelocity tokA toDA AngleRef.mk opsA) ∧
    KeySorted ErrProbRef.myRef
      (runOps ErrProbRef.myRef tokE toDE ErrProbRef.mk opsE) ∧
    (∀ d : ErrProbRef,
      keyExists ErrProbRef.myRef
        (runOps ErrProbRef.myRef tokE toDE ErrProbRef.mk opsE)
        d.myRef = true →
      addSample ErrProbRef.myRef
        (runOps ErrProbRef.myRef tokE toDE ErrProbRef.mk opsE) d =
        runOps ErrProbRef.myRef tokE toDE ErrProbRef.mk opsE) := by
  refine ⟨keySorted_runOps _ tokA toDA AngleRef.mk opsA, ?_,
    keySorted_runOps _ tokE toDE ErrProbRef.mk opsE, ?_⟩
  · intro d hex
    exact addSample_of_keyExists
      (keySorted_runOps _ tokA toDA AngleRef.mk opsA) hex
  · intro d hex
    exact addSample_of_keyExists
      (keySorted_runOps _ tokE toDE ErrProbRef.mk opsE) hex

/-- Witness for C9: a concrete run of two addSample calls for each table,
then addSample with an already-present key. -/
theorem c9_tables_invariant_witness :
    KeySorted AngleRef.myVelocity
      (runOps AngleRef.myVelocity (fun s _ => [s]) (fun _ => none)
        AngleRef.mk [TableOp.sample ⟨1, 5⟩, TableOp.sample ⟨0, 3⟩]) ∧
    addSample AngleRef.myVelocity
      (runOps AngleRef.myVelocity (fun s _ => [s]) (fun _ => none)
        AngleRef.mk [TableOp.sample ⟨1, 5⟩, TableOp.sample ⟨0, 3⟩]) ⟨1, 9⟩ =
      runOps AngleRef.myVelocity (fun s _ => [s]) (fun _ => none)
        AngleRef.mk [TableOp.sample ⟨1, 5⟩, TableOp.sample ⟨0, 3⟩] ∧
    KeySorted ErrProbRef.myRef
      (runOps ErrProbRef.myRef (fun s _ => [s]) (fun _ => none)
        ErrProbRef.mk [TableOp.sample ⟨2, 7⟩]) ∧
    addSample ErrProbRef.myRef
      (runOps ErrProbRef.myRef (fun s _ => [s]) (fun _ => none)
        ErrProbRef.mk [TableOp.sample ⟨2, 7⟩]) ⟨2, 8⟩ =
      runOps ErrProbRef.myRef (fun s _ => [s]) (fun _ => none)
        ErrProbRef.mk [TableOp.sample ⟨2, 7⟩] := by
  refine ⟨(c9_tables_invariant (fun s _ => [s]) (fun s _ => [s])
      (fun _ => none) (fun _ => none)
      [TableOp.sample ⟨1, 5⟩, TableOp.sample ⟨0, 3⟩]
      [TableOp.sample ⟨2, 7⟩]).1, ?_,
    (c9_tables_invariant (fun s _ => [s]) (fun s _ => [s])
      (fun _ => none) (fun _ => none)
      [TableOp.sample ⟨1, 5⟩, TableOp.sample ⟨0, 3⟩]
      [TableOp.sample ⟨2, 7⟩]).2.2.1, ?_⟩
  · exact (c9_tables_invariant (fun s _ => [s]) (fun s _ => [s])
      (fun _ => none) (fun _ => none)
      [TableOp.sample ⟨1, 5⟩, TableOp.sample ⟨0, 3⟩]
      [TableOp.sample ⟨2, 7⟩]).2.1 ⟨1, 9⟩
      (by norm_num [runOps, applyOp, addSample, sortAsc, keyExists, keyLe])
  · exact (c9_tables_invariant (fun s _ => [s]) (fun s _ => [s])
      (fun _ => none) (fun _ => none)
      [TableOp.sample ⟨1, 5⟩, TableOp.sample ⟨0, 3⟩]
      [TableOp.sample ⟨2, 7⟩]).2.2.2 ⟨2, 8⟩
      (by norm_num [runOps, applyOp, addSample, sortAsc, keyExists, keyLe])

/-- Claim C10: parse is atomic on invalid input: whenever can_parse
rejects the string, or the string is empty, parse leaves the container
exactly as it was; when the whole string validates and is nonempty the
container is cleared and repopulated, so the result does not depend on the
previous contents. -/
theorem c10_parse_atomicity
    (tok : String → String → List String) (toDouble : String → Option ℚ)
    (seq : String) (lA : List AngleRef) (lE : List ErrProbRef) :
    ((canParse tok toDouble seq = false ∨ seq = "") →
      parseRefs AngleRef.myVelocity tok toDouble AngleRef.mk seq lA = lA ∧
      parseRefs ErrProbRef.myRef tok toDouble ErrProbRef.mk seq lE = lE) ∧
    (canParse tok toDouble seq = true → seq ≠ "" →
      parseRefs AngleRef.myVelocity tok toDouble AngleRef.mk seq lA =
        parseRefs AngleRef.myVelocity tok toDouble AngleRef.mk seq [] ∧
      parseRefs ErrProbRef.myRef tok toDouble ErrProbRef.mk seq lE =
        parseRefs ErrProbRef.myRef tok toDouble ErrProbRef.mk seq []) := by
  constructor
  · intro h
    constructor
    · unfold parseRefs
      rw [if_pos h]
    · unfold parseRefs
      rw [if_pos h]
  · intro h1 h2
    have hcond : ¬ (canParse tok toDouble seq = false ∨ seq = "") := by
      push_neg
      exact ⟨by simp [h1], h2⟩
    constructor
    · unfold parseRefs
      rw [if_neg hcond, if_neg hcond]
    · unfold parseRefs
      rw [if_neg hcond, if_neg hcond]

/-- Witness for C10: a concrete invalid input leaves concrete containers
unchanged, and a concrete valid input gives a result independent of the
prior contents. -/
theorem c10_parse_atomicity_witness :
    (parseRefs AngleRef.myVelocity (fun s _ => [s]) (fun _ => none)
        AngleRef.mk "x" [⟨1, 2⟩] = [⟨1, 2⟩] ∧
      parseRefs ErrProbRef.myRef (fun s _ => [s]) (fun _ => none)
        ErrProbRef.mk "x" [⟨3, 4⟩] = [⟨3, 4⟩]) ∧
    (parseRefs AngleRef.myVelocity (fun s _ => [s, s]) (fun _ => some 0)
        AngleRef.mk "a" [⟨1, 2⟩] =
      parseRefs AngleRef.myVelocity (fun s _ => [s, s]) (fun _ => some 0)
        AngleRef.mk "a" [] ∧
      parseRefs ErrProbRef.myRef (fun s _ => [s, s]) (fun _ => some 0)
        ErrProbRef.mk "a" [⟨3, 4⟩] =
      parseRefs ErrProbRef.myRef (fun s _ => [s, s]) (fun _ => some 0)
        ErrProbRef.mk "a" []) :=
  ⟨(c10_parse_atomicity (fun s _ => [s]) (fun _ => none) "x"
      [⟨1, 2⟩] [⟨3, 4⟩]).1 (Or.inl rfl),
   (c10_parse_atomicity (fun s _ => [s, s]) (fun _ => some 0) "a"
      [⟨1, 2⟩] [⟨3, 4⟩]).2 rfl (by simp)⟩

lemma degenerateLengthEval :
    ((outerFovOf ⟨⟨0, 0, 10⟩, ⟨0, 0, 9⟩, ⟨0, 1, 0⟩⟩ 0).cross
      (dirOf ⟨⟨0, 0, 10⟩, ⟨0, 0, 9⟩, ⟨0, 1, 0⟩⟩)).length = 0 := by
  have hdir : dirOf (⟨⟨0, 0, 10⟩, ⟨0, 0, 9⟩, ⟨0, 1, 0⟩⟩ : Pose ℝ) =
      ⟨0, 0, -1⟩ := by
    unfold dirOf
    norm_num [Vec3.sub, Vec3.mk.injEq]
  have horth : orthoDirOf ⟨⟨0, 0, 10⟩, ⟨0, 0, 9⟩, ⟨0, 1, 0⟩⟩ =
      ⟨-1, 0, 0⟩ := by
    unfold orthoDirOf
    rw [hdir, orthoDirRaw_of_dot_ne _ (by norm_num [Vec3.dot]),
      normalize_of_length_one _ length_negX]
  have hrad : DEG2RAD (0.5 * 0) = 0 := by
    unfold DEG2RAD
    norm_num
  have houter : outerFovOf ⟨⟨0, 0, 10⟩, ⟨0, 0, 9⟩, ⟨0, 1, 0⟩⟩ 0 =
      ⟨0, 0, -1⟩ := by
    unfold outerFovOf
    rw [hdir, horth, hrad, Real.cos_zero, Real.sin_zero]
    norm_num [Vec3.scale, Vec3.add, Vec3.mk.injEq]
  rw [houter, hdir]
  norm_num [Vec3.cross, Vec3.length, Vec3.mk.injEq, Real.sqrt_zero]

/-- Claim C5: centerOnRegion yields lookAt = center exactly, the current
up vector, and position = center + dir * sign * cross-length ratio, with
outerFOV, radiusVec and sign as in the source. -/
theorem c5_centerTo_output (p : Pose ℝ) (fovy : ℝ) (pos : Vec3 ℝ)
    (radius : ℝ) (az : Bool) :
    (centerTo p fovy pos radius az).lookAt = pos ∧
    (centerTo p fovy pos radius az).up = p.up ∧
    (centerTo p fovy pos radius az).lookFrom =
      pos.add ((dirOf p).scale
        ((if ((outerFovOf p fovy).cross ((orthoDirOf p).scale radius)).dot
              ((outerFovOf p fovy).cross (dirOf p)) > 0 then (1 : ℝ)
          else -1) *
          ((outerFovOf p fovy).cross ((orthoDirOf p).scale radius)).length /
          ((outerFovOf p fovy).cross (dirOf p)).length)) := by
  have hrv : (pos.add ((orthoDirOf p).scale radius)).sub pos =
      (orthoDirOf p).scale radius := by
    simp [Vec3.add, Vec3.sub, Vec3.mk.injEq]
  refine ⟨rfl, rfl, ?_⟩
  unfold centerTo
  simp only [hrv]

/-- Claim C1 fails on the code: at the oblique view direction (1, 0, -1),
which is not parallel to the vertical axis, centerTo's helper direction
comes out as the fixed axis (-1, 0, 0) — the source takes the fallback
branch whenever dir has a nonzero dot product with the z axis — while the
claim demands the normalized horizontal-plane perpendicular (0, 1, 0). -/
theorem c1_orthoDir_fallback_divergence :
    dirOf (⟨⟨0, 0, 1⟩, ⟨1, 0, 0⟩, ⟨0, 0, 1⟩⟩ : Pose ℝ) = ⟨1, 0, -1⟩ ∧
    (¬ ∃ c : ℝ,
      dirOf (⟨⟨0, 0, 1⟩, ⟨1, 0, 0⟩, ⟨0, 0, 1⟩⟩ : Pose ℝ) = ⟨0, 0, c⟩) ∧
    orthoDirOf ⟨⟨0, 0, 1⟩, ⟨1, 0, 0⟩, ⟨0, 0, 1⟩⟩ = ⟨-1, 0, 0⟩ ∧
    Vec3.normalize ⟨-(0 : ℝ), 1, 0⟩ = ⟨0, 1, 0⟩ ∧
    orthoDirOf ⟨⟨0, 0, 1⟩, ⟨1, 0, 0⟩, ⟨0, 0, 1⟩⟩ ≠
      Vec3.normalize ⟨-(0 : ℝ), 1, 0⟩ := by
  have hdir : dirOf (⟨⟨0, 0, 1⟩, ⟨1, 0, 0⟩, ⟨0, 0, 1⟩⟩ : Pose ℝ) =
      ⟨1, 0, -1⟩ := by
    unfold dirOf
    norm_num [Vec3.sub, Vec3.mk.injEq]
  have horth : orthoDirOf ⟨⟨0, 0, 1⟩, ⟨1, 0, 0⟩, ⟨0, 0, 1⟩⟩ =
      ⟨-1, 0, 0⟩ := by
    unfold orthoDirOf
    rw [hdir, orthoDirRaw_of_dot_ne _ (by norm_num [Vec3.dot]),
      normalize_of_length_one _ length_negX]
  have hnorm : Vec3.normalize ⟨-(0 : ℝ), 1, 0⟩ = ⟨0, 1, 0⟩ := by
    have h0 : (⟨-(0 : ℝ), 1, 0⟩ : Vec3 ℝ) = ⟨0, 1, 0⟩ := by
      norm_num [Vec3.mk.injEq]
    rw [h0]
    refine normalize_of_length_one _ ?_
    unfold Vec3.length
    norm_num
  refine ⟨hdir, ?_, horth, hnorm, ?_⟩
  · rintro ⟨c, hc⟩
    rw [hdir] at hc
    have := congrArg Vec3.x hc
    norm_num at this
  · rw [horth, hnorm]
    intro h
    have := congrArg Vec3.x h
    norm_num at this

/-- Claim C8 as stated is false on the code: at a pose looking straight
down with zero field of view, outerFov x dir has zero length, yet centerTo
still replaces the pose (the look-at point jumps to the requested center)
instead of leaving it unchanged. -/
theorem c8_centerTo_degenerate_counterexample :
    ((outerFovOf ⟨⟨0, 0, 10⟩, ⟨0, 0, 9⟩, ⟨0, 1, 0⟩⟩ 0).cross
      (dirOf ⟨⟨0, 0, 10⟩, ⟨0, 0, 9⟩, ⟨0, 1, 0⟩⟩)).length = 0 ∧
    centerTo ⟨⟨0, 0, 10⟩, ⟨0, 0, 9⟩, ⟨0, 1, 0⟩⟩ 0 ⟨5, 5, 0⟩ 1 false ≠
      ⟨⟨0, 0, 10⟩, ⟨0, 0, 9⟩, ⟨0, 1, 0⟩⟩ := by
  refine ⟨degenerateLengthEval, fun h => ?_⟩
  have hla := congrArg Pose.lookAt h
  have heq : (centerTo ⟨⟨0, 0, 10⟩, ⟨0, 0, 9⟩, ⟨0, 1, 0⟩⟩ 0
      ⟨5, 5, 0⟩ 1 false).lookAt = ⟨5, 5, 0⟩ := rfl
  rw [heq] at hla
  have := congrArg Vec3.x hla
  norm_num at this

/-- Claim C8 amended: in the degenerate case (outerFOV x dir of zero
length) centerTo does not leave the pose unchanged; it still installs a
new pose whose look-at point is the requested center and whose up vector
is the current one, while the position is produced by the unguarded
division by the zero cross-product length (undefined in the source's
floating point). -/
theorem c8_centerTo_degenerate_overwrites (p : Pose ℝ) (fovy : ℝ)
    (pos : Vec3 ℝ) (radius : ℝ) (az : Bool)
    (hdeg : ((outerFovOf p fovy).cross (dirOf p)).length = 0)
    (hne : pos ≠ p.lookAt) :
    centerTo p fovy pos radius az ≠ p ∧
    (centerTo p fovy pos radius az).lookAt = pos ∧
    (centerTo p fovy pos radius az).up = p.up := by
  refine ⟨fun h => hne ?_, rfl, rfl⟩
  exact congrArg Pose.lookAt h

/-- Witness for the amended C8 at the concrete degenerate pose. -/
theorem c8_centerTo_degenerate_overwrites_witness :
    centerTo ⟨⟨0, 0, 10⟩, ⟨0, 0, 9⟩, ⟨0, 1, 0⟩⟩ 0 ⟨5, 5, 0⟩ 1 false ≠
      ⟨⟨0, 0, 10⟩, ⟨0, 0, 9⟩, ⟨0, 1, 0⟩⟩ ∧
    (centerTo ⟨⟨0, 0, 10⟩, ⟨0, 0, 9⟩, ⟨0, 1, 0⟩⟩ 0
      ⟨5, 5, 0⟩ 1 false).lookAt = ⟨5, 5, 0⟩ ∧
    (centerTo ⟨⟨0, 0, 10⟩, ⟨0, 0, 9⟩, ⟨0, 1, 0⟩⟩ 0
      ⟨5, 5, 0⟩ 1 false).up = ⟨0, 1, 0⟩ :=
  c8_centerTo_degenerate_overwrites ⟨⟨0, 0, 10⟩, ⟨0, 0, 9⟩, ⟨0, 1, 0⟩⟩ 0
    ⟨5, 5, 0⟩ 1 false degenerateLengthEval
    (by
      intro h
      have := congrArg Vec3.x h
      norm_num at this)

end SumoEdit
